import Mathlib

/-!
Verification of the batch web-capture tool (ui_app/app.py): a shallow
embedding of its data model and operations, with theorems checking the
natural-language specification against the code.
-/

namespace Scrapeshot

/-! ## Configuration constants (module level, app.py lines 14-24, 46-51) -/

def SCREENSHOT_DIR : String := "screenshots"

def ZIP_DIR : String := "zip_files"

/-- Viewport passed to browser.new_context: width 1920, height 1080. -/
def viewportWidth : Nat := 1920

/-- Viewport passed to browser.new_context: width 1920, height 1080. -/
def viewportHeight : Nat := 1080

/-! ## Python string primitives used by the code -/

/-- Python str.splitlines on a character list, restricted to the line
boundaries the code can meet in error text: LF, CR and CRLF.
Key Python behaviours preserved: an empty string yields an empty list,
and a trailing line boundary does not produce a trailing empty line. -/
def splitlinesList : List Char → List (List Char)
  | [] => []
  | '\r' :: '\n' :: rest => [] :: splitlinesList rest
  | '\r' :: rest => [] :: splitlinesList rest
  | '\n' :: rest => [] :: splitlinesList rest
  | c :: rest =>
    match splitlinesList rest with
    | [] => [[c]]
    | l :: ls => (c :: l) :: ls

/-- Python str.splitlines (see splitlinesList). -/
def splitlines (s : String) : List String :=
  (splitlinesList s.data).map List.asString

/-- Python str.startswith: p is a leading substring of s. -/
def startswith (s p : String) : Bool :=
  p.data.isPrefixOf s.data

/-- Python str.split("//") on a character list: split at every
non-overlapping occurrence of "//", scanning left to right, keeping
empty segments (so "".split("//") is [""]). -/
def splitDoubleSlash : List Char → List (List Char)
  | [] => [[]]
  | '/' :: '/' :: rest => [] :: splitDoubleSlash rest
  | c :: rest =>
    match splitDoubleSlash rest with
    | [] => [[c]]
    | l :: ls => (c :: l) :: ls

/-- Python str.split('\n') on a character list, keeping empty segments. -/
def splitNewline : List Char → List (List Char)
  | [] => [[]]
  | '\n' :: rest => [] :: splitNewline rest
  | c :: rest =>
    match splitNewline rest with
    | [] => [[c]]
    | l :: ls => (c :: l) :: ls

/-- Python str.strip(): remove leading and trailing whitespace. -/
def pyStrip (cs : List Char) : List Char :=
  ((cs.dropWhile Char.isWhitespace).reverse.dropWhile Char.isWhitespace).reverse

/-- Python str.strip() on a String. -/
def strip (s : String) : String :=
  List.asString (pyStrip s.data)

/-! ## Artifact naming (take_screenshot, app.py lines 65-66) -/

/-- The character class of the regex r'[:/\\?*&"<>|]' in take_screenshot. -/
def isForbidden (c : Char) : Bool :=
  c = ':' || c = '/' || c = '\\' || c = '?' || c = '*' || c = '&' ||
    c = '"' || c = '<' || c = '>' || c = '|'

/-- One character of re.sub(r'[:/\\?*&"<>|]', '_', s). -/
def sanitizeChar (c : Char) : Char :=
  if isForbidden c then '_' else c

/-- re.sub(r'[:/\\?*&"<>|]', '_', s): a character-class substitution is a
character-wise map. -/
def sanitize (s : String) : String :=
  List.asString (s.data.map sanitizeChar)

/-- safe_name = re.sub(r'[:/\\?*&"<>|]', '_', url.split("//")[1]).
Python url.split splits on every occurrence of "//"; element [1] is the
segment after the first "//" (Python raises IndexError when there is no
"//"; the fallible access is modelled in the Capture Task body below, and
this total version is used for scheme-carrying addresses, where the
element exists). -/
def safe_name (url : String) : String :=
  sanitize (List.asString (((splitDoubleSlash url.data).drop 1).headD []))

/-- The artifact file name f-string from take_screenshot:
f"{index+1}_{safe_name}.png" (index is the 0-based enumerate index). -/
def screenshot_filename (index : Nat) (url : String) : String :=
  Nat.repr (index + 1) ++ "_" ++ safe_name url ++ ".png"

/-- screenshot_path = os.path.join(SCREENSHOT_DIR, f"{index+1}_{safe_name}.png"). -/
def screenshot_path (index : Nat) (url : String) : String :=
  SCREENSHOT_DIR ++ "/" ++ screenshot_filename index url

/-- The artifact file names produced by the tasks spawned from
enumerate(urls), starting at 0-based index i. -/
def batch_filenames : Nat → List String → List String
  | _, [] => []
  | i, u :: us => screenshot_filename i u :: batch_filenames (i + 1) us

/-! ## Settling strategy (scroll_to_bottom, app.py lines 28-37) -/

/-- One iteration of the scroll loop: the vertical amount handed to
window.scrollBy, the seconds slept, and the height re-measured after the
pause. -/
structure ScrollIter where
  delta : Nat
  pauseSecs : Nat
  measured : Nat
deriving DecidableEq, Repr

/-- Default pause_time=1 of scroll_to_bottom. -/
def scroll_pause_time : Nat := 1

/-- Default max_scrolls=30 of scroll_to_bottom. -/
def scroll_max_scrolls : Nat := 30

/-- The loop body of scroll_to_bottom. The page is modelled by its
scroll-height trajectory: heights k is document.body.scrollHeight after k
completed scroll-and-pause cycles. Each cycle evaluates
window.scrollBy(0, document.body.scrollHeight) (so the scroll delta is
the current height), sleeps pause_time, re-measures, and breaks when the
new measurement equals the remembered one; otherwise the remembered
height is updated and the loop continues, up to the fuel bound. -/
def scrollAux (heights : Nat → Nat) (pauseT : Nat) : Nat → Nat → Nat → List ScrollIter
  | _, _, 0 => []
  | last, k, fuel + 1 =>
    let delta := heights k
    let newHeight := heights (k + 1)
    if newHeight = last then [⟨delta, pauseT, newHeight⟩]
    else ⟨delta, pauseT, newHeight⟩ :: scrollAux heights pauseT newHeight (k + 1) fuel

/-- scroll_to_bottom(page): last_height = initial measurement, then the
loop with the default pause_time=1 and max_scrolls=30.  The returned list
records one entry per executed loop iteration. -/
def scroll_to_bottom (heights : Nat → Nat) : List ScrollIter :=
  scrollAux heights scroll_pause_time (heights 0) 0 scroll_max_scrolls

/-! ## Capture Task (take_screenshot, app.py lines 39-77) -/

/-- What a Capture Task call produces at its boundary: either the status
string returned by take_screenshot, or an exception that escaped it. -/
inductive TaskResult where
  | returned (msg : String)
  | escaped (desc : String)
deriving DecidableEq, Repr

/-- The browser-side effects a single take_screenshot call can meet,
each fallible step carrying the description str(e) of the exception it
raises: context creation (step 1), page creation, request routing (step
2), navigation (step 3), and the final screenshot call (step 7).  The
page itself is modelled by its scroll-height trajectory, consumed by the
settling strategy (steps 4-5 only wait). -/
structure BrowserEnv where
  newContext : Except String Unit
  newPage : Except String Unit
  route : Except String Unit
  goto : Except String Unit
  settleHeights : Nat → Nat
  screenshot : Except String Unit

/-- The try-block body of take_screenshot: steps 1-7 in source order.
After the scroll, the filename computation url.split("//")[1] is itself
fallible: Python raises IndexError when the url has no "//". -/
def tryBody (env : BrowserEnv) (url : String) (index : Nat) : Except String String := do
  let _ ← env.newContext
  let _ ← env.newPage
  let _ ← env.route
  let _ ← env.goto
  let _ := scroll_to_bottom env.settleHeights
  let part ← match (splitDoubleSlash url.data).drop 1 with
    | [] => Except.error "list index out of range"
    | p :: _ => Except.ok (List.asString p)
  let safe := sanitize part
  let _ := SCREENSHOT_DIR ++ "/" ++ Nat.repr (index + 1) ++ "_" ++ safe ++ ".png"
  let _ ← env.screenshot
  Except.ok ("✅ Success: " ++ url)

/-- The except-block of take_screenshot:
error_message = str(e).splitlines()[0], then the warning status string.
Indexing [0] on the empty list (which splitlines yields exactly when
str(e) is empty) raises an IndexError inside the handler, and that
exception escapes the task. -/
def handleError (url e : String) : TaskResult :=
  match splitlines e with
  | [] => TaskResult.escaped "IndexError: list index out of range"
  | line :: _ => TaskResult.returned ("⚠️ Error on " ++ url ++ ": " ++ line)

/-- take_screenshot: the try body wrapped in the except-handler. -/
def take_screenshot (env : BrowserEnv) (url : String) (index : Nat) : TaskResult :=
  match tryBody env url index with
  | Except.ok msg => TaskResult.returned msg
  | Except.error e => handleError url e

/-! ## Batch Coordinator (run_batch_processor, app.py lines 79-114) -/

/-- One progress_bar.progress update: f"Processed {i+1} of {total} URLs". -/
structure ProgressEvent where
  completed : Nat
  total : Nat
deriving DecidableEq, Repr

/-- The asyncio.as_completed loop of run_batch_processor, consuming the
task results in completion order.  Each awaited result is appended to
st.session_state.logs and a progress event with completed count i+1 is
emitted.  If an awaited task re-raises (an escaped TaskResult), the
exception propagates out of the loop and no further record or event is
produced: the whole run yields none. -/
def batchLoop (total : Nat) : List TaskResult → Nat → Option (List String × List ProgressEvent)
  | [], _ => some ([], [])
  | TaskResult.returned r :: rest, i =>
    (batchLoop total rest (i + 1)).map (fun p => (r :: p.1, ⟨i + 1, total⟩ :: p.2))
  | TaskResult.escaped _ :: _, _ => none

/-- run_batch_processor applied to the completion-order sequence of task
results: total_tasks = len(tasks), loop from i = 0. -/
def run_batch_processor (results : List TaskResult) : Option (List String × List ProgressEvent) :=
  batchLoop results.length results 0

/-! ## Flush (flush_files, app.py lines 119-128) and session state -/

/-- A directory modelled as none (absent) or some list of entries. -/
abbrev DirState := Option (List String)

/-- The process-wide state flush_files touches: the two directories and
the session state keys logs, processing_complete, zip_path. -/
structure AppState where
  screenshotDir : DirState
  zipDir : DirState
  logs : List String
  processingComplete : Bool
  zipPath : Option String
deriving DecidableEq, Repr

/-- shutil.rmtree(directory) guarded by os.path.exists(directory),
followed by os.makedirs(directory).  (os.makedirs is only ever reached
with the directory removed, so it creates a fresh empty one.) -/
def flush_dir (d : DirState) : DirState :=
  let removed : DirState := if d.isSome then none else d
  match removed with
  | none => some []
  | some fs => some fs

/-- flush_files: reset both directories and the three session keys. -/
def flush_files (s : AppState) : AppState :=
  { screenshotDir := flush_dir s.screenshotDir
    zipDir := flush_dir s.zipDir
    logs := []
    processingComplete := false
    zipPath := none }

/-! ## Results / download section (app.py lines 211-218) -/

/-- Python truthiness of st.session_state.zip_path: None and the empty
string are falsy. -/
def truthy : Option String → Bool
  | none => false
  | some s => !(s == "")

/-- Observable effects of one pass through the results section. -/
structure ResultsEffects where
  archivesCreated : Nat
  warned : Bool
deriving DecidableEq, Repr

/-- The zip-creation block: if not st.session_state.zip_path, then
either shutil.make_archive over SCREENSHOT_DIR (when any(os.scandir(..))
sees an entry) setting zip_path to "zip_files/screenshots.zip", or a
st.warning when the directory is empty.  Returns the new zip_path and
the effects. -/
def results_section (zipPath : Option String) (screenshotFiles : List String) :
    Option String × ResultsEffects :=
  if truthy zipPath then
    (zipPath, ⟨0, false⟩)
  else if screenshotFiles.isEmpty then
    (zipPath, ⟨0, true⟩)
  else
    (some (ZIP_DIR ++ "/" ++ "screenshots" ++ ".zip"), ⟨1, false⟩)

/-! ## Input handlers (app.py lines 148-183) -/

/-- pandas df[COL].dropna(): keep the non-missing values in order. -/
def dropna (col : List (Option String)) : List String :=
  col.filterMap id

/-- Worker for uniqueKeepFirst: skip values already seen. -/
def uniqueAux : List String → List String → List String
  | _, [] => []
  | seen, a :: rest =>
    if a ∈ seen then uniqueAux seen rest
    else a :: uniqueAux (a :: seen) rest

/-- pandas .unique(): keep the first occurrence of each value, in
first-appearance order. -/
def uniqueKeepFirst (l : List String) : List String :=
  uniqueAux [] l

/-- The CSV upload handler (app.py line 158): the URLs handed to the
batch are [f"https://{url}" for url in df['name'].dropna().unique()] —
the prefix is applied unconditionally. -/
def csv_urls (nameColumn : List (Option String)) : List String :=
  (uniqueKeepFirst (dropna nameColumn)).map (fun url => "https://" ++ url)

/-- The paste handler's per-line normalization (app.py lines 180-183):
prepend "https://" only when the line starts with neither scheme. -/
def paste_normalize (line : String) : String :=
  if startswith line "http://" || startswith line "https://" then line
  else "https://" ++ line

/-- The paste handler (app.py lines 171-183): split the textarea on
newlines, strip each line, drop blank lines, cap at 10 lines, then
normalize each. -/
def paste_urls (input : String) : List String :=
  let lines := ((splitNewline input.data).map (fun l => strip (List.asString l))).filter
    (fun l => l != "")
  let lines := if lines.length > 10 then lines.take 10 else lines
  lines.map paste_normalize

/-! ## Decimal digits: a reference rendering of Nat.repr -/

/-- The decimal digit characters of n, most significant first (the pure
form of Nat.toDigits 10). -/
def digitsOf (n : Nat) : List Char :=
  if _h : n < 10 then [Nat.digitChar n]
  else digitsOf (n / 10) ++ [Nat.digitChar (n % 10)]
termination_by n
decreasing_by
  exact Nat.div_lt_self (by omega) (by omega)

/-- Read a decimal digit string back to the number it denotes. -/
def readDigits (l : List Char) : Nat :=
  l.foldl (fun a c => 10 * a + (c.toNat - 48)) 0

/-! ## Concrete instances used in the theorems below -/

/-- A run in which every browser step succeeds and the page height is
constantly 0. -/
def okEnv : BrowserEnv :=
  { newContext := Except.ok ()
    newPage := Except.ok ()
    route := Except.ok ()
    goto := Except.ok ()
    settleHeights := fun _ => 0
    screenshot := Except.ok () }

/-- A run whose navigation raises an exception whose description str(e)
is the empty string (e.g. a bare Python exception raised with no
message). -/
def emptyMsgEnv : BrowserEnv :=
  { okEnv with goto := Except.error "" }

/-- A run whose navigation raises a timeout with a two-line description. -/
def timeoutEnv : BrowserEnv :=
  { okEnv with goto := Except.error "Timeout 60000ms exceeded.\nCall log." }

/-- A page that shrinks from height 100 to height 80 on the first scroll
and stays at 80 afterwards. -/
def shrinkingPage : Nat → Nat :=
  fun k => if k = 0 then 100 else 80

/-! ## Lemmas: decimal rendering -/

theorem digitChar_isDigit {n : Nat} (h : n < 10) : (Nat.digitChar n).isDigit = true := by
  interval_cases n <;> decide

theorem digitChar_toNat {n : Nat} (h : n < 10) : (Nat.digitChar n).toNat = n + 48 := by
  interval_cases n <;> decide

theorem toDigitsCore_eq :
    ∀ (fuel n : Nat) (ds : List Char), n < fuel →
      Nat.toDigitsCore 10 fuel n ds = digitsOf n ++ ds := by
  intro fuel
  induction fuel with
  | zero => intro n ds h; omega
  | succ f ih =>
    intro n ds h
    show (if n / 10 = 0 then Nat.digitChar (n % 10) :: ds
      else Nat.toDigitsCore 10 f (n / 10) (Nat.digitChar (n % 10) :: ds)) = digitsOf n ++ ds
    by_cases h10 : n / 10 = 0
    · have hn : n < 10 := by omega
      rw [if_pos h10, digitsOf, dif_pos hn, Nat.mod_eq_of_lt hn]
      rfl
    · have hge : ¬ n < 10 := by
        intro hlt
        exact h10 (Nat.div_eq_of_lt hlt)
      have h1 : n / 10 < n := Nat.div_lt_self (by omega) (by omega)
      have hdiv : n / 10 < f := by omega
      rw [if_neg h10, ih (n / 10) _ hdiv]
      conv_rhs => rw [digitsOf]
      rw [dif_neg hge, List.append_assoc]
      rfl

theorem repr_data (n : Nat) : (Nat.repr n).data = digitsOf n := by
  show (Nat.toDigits 10 n).asString.data = digitsOf n
  rw [Nat.toDigits, toDigitsCore_eq (n + 1) n [] (Nat.lt_succ_self n), List.append_nil]
  rfl

theorem readDigits_digitsOf (n : Nat) : readDigits (digitsOf n) = n := by
  induction n using Nat.strong_induction_on with
  | _ n ih =>
    rw [digitsOf]
    by_cases h : n < 10
    · rw [dif_pos h]
      show 10 * 0 + ((Nat.digitChar n).toNat - 48) = n
      rw [digitChar_toNat h]
      omega
    · rw [dif_neg h]
      show List.foldl _ 0 _ = n
      rw [List.foldl_append]
      have hrec : n / 10 < n := Nat.div_lt_self (by omega) (by omega)
      have hr : List.foldl (fun a c => 10 * a + (c.toNat - 48)) 0 (digitsOf (n / 10)) = n / 10 :=
        ih (n / 10) hrec
      show 10 * List.foldl _ 0 (digitsOf (n / 10)) + ((Nat.digitChar (n % 10)).toNat - 48) = n
      rw [hr, digitChar_toNat (Nat.mod_lt n (by omega))]
      omega

theorem repr_inj {m n : Nat} (h : Nat.repr m = Nat.repr n) : m = n := by
  have hd : digitsOf m = digitsOf n := by
    rw [← repr_data, ← repr_data, h]
  calc m = readDigits (digitsOf m) := (readDigits_digitsOf m).symm
    _ = readDigits (digitsOf n) := by rw [hd]
    _ = n := readDigits_digitsOf n

theorem digitsOf_isDigit (n : Nat) : ∀ c ∈ digitsOf n, c.isDigit = true := by
  induction n using Nat.strong_induction_on with
  | _ n ih =>
    intro c hc
    rw [digitsOf] at hc
    by_cases h : n < 10
    · rw [dif_pos h] at hc
      rcases List.mem_singleton.mp hc with rfl
      exact digitChar_isDigit h
    · rw [dif_neg h] at hc
      rcases List.mem_append.mp hc with h1 | h2
      · exact ih (n / 10) (Nat.div_lt_self (by omega) (by omega)) c h1
      · rcases List.mem_singleton.mp h2 with rfl
        exact digitChar_isDigit (Nat.mod_lt n (by omega))

theorem takeWhile_digits_append (l1 l2 : List Char)
    (h : ∀ c ∈ l1, c.isDigit = true) :
    (l1 ++ '_' :: l2).takeWhile Char.isDigit = l1 := by
  induction l1 with
  | nil => simp [List.takeWhile]
  | cons a as ih =>
    have ha : a.isDigit = true := h a (List.mem_cons_self a as)
    simp only [List.cons_append, List.takeWhile_cons, ha, if_true]
    rw [ih (fun c hc => h c (List.mem_cons_of_mem a hc))]

/-- Distinct task indices give distinct artifact file names: the index
prefix is exactly the leading digit run of the name. -/
theorem screenshot_filename_inj {i j : Nat} {u v : String} (hij : i ≠ j) :
    screenshot_filename i u ≠ screenshot_filename j v := by
  intro h
  apply hij
  have hd : (screenshot_filename i u).data = (screenshot_filename j v).data := by rw [h]
  simp only [screenshot_filename, String.data_append] at hd
  have h1 : (Nat.repr (i + 1)).data ++ '_' :: ((safe_name u).data ++ ['.', 'p', 'n', 'g'])
      = (Nat.repr (j + 1)).data ++ '_' :: ((safe_name v).data ++ ['.', 'p', 'n', 'g']) := by
    simpa [List.append_assoc] using hd
  have h2 : (Nat.repr (i + 1)).data = (Nat.repr (j + 1)).data := by
    have ti := takeWhile_digits_append (Nat.repr (i + 1)).data
      ((safe_name u).data ++ ['.', 'p', 'n', 'g'])
      (by rw [repr_data]; exact digitsOf_isDigit (i + 1))
    have tj := takeWhile_digits_append (Nat.repr (j + 1)).data
      ((safe_name v).data ++ ['.', 'p', 'n', 'g'])
      (by rw [repr_data]; exact digitsOf_isDigit (j + 1))
    rw [← ti, ← tj, h1]
  have h3 : Nat.repr (i + 1) = Nat.repr (j + 1) := String.ext h2
  have := repr_inj h3
  omega

theorem mem_batch_filenames {x : String} :
    ∀ (i : Nat) (us : List String), x ∈ batch_filenames i us →
      ∃ k u, i ≤ k ∧ x = screenshot_filename k u := by
  intro i us
  induction us generalizing i with
  | nil => intro h; simp [batch_filenames] at h
  | cons u rest ih =>
    intro h
    rcases List.mem_cons.mp h with h1 | h2
    · exact ⟨i, u, Nat.le_refl i, h1⟩
    · rcases ih (i + 1) h2 with ⟨k, w, hk, hx⟩
      exact ⟨k, w, by omega, hx⟩

theorem batch_filenames_nodup : ∀ (i : Nat) (us : List String),
    (batch_filenames i us).Nodup := by
  intro i us
  induction us generalizing i with
  | nil => exact List.nodup_nil
  | cons u rest ih =>
    refine List.nodup_cons.mpr ⟨?_, ih (i + 1)⟩
    intro hmem
    rcases mem_batch_filenames (i + 1) rest hmem with ⟨k, w, hk, hx⟩
    exact screenshot_filename_inj (u := u) (v := w) (by omega) hx

/-! ## Lemmas: settling strategy -/

theorem scrollAux_length_le (h : Nat → Nat) (p : Nat) :
    ∀ (fuel last k : Nat), (scrollAux h p last k fuel).length ≤ fuel := by
  intro fuel
  induction fuel with
  | zero => intro last k; simp [scrollAux]
  | succ f ih =>
    intro last k
    simp only [scrollAux]
    split
    · simp
    · simpa using Nat.succ_le_succ (ih (h (k + 1)) (k + 1))

theorem scrollAux_length_pos (h : Nat → Nat) (p : Nat) (last k fuel : Nat)
    (hf : 0 < fuel) : 0 < (scrollAux h p last k fuel).length := by
  cases fuel with
  | zero => omega
  | succ f =>
    simp only [scrollAux]
    split <;> simp

theorem scrollAux_get (h : Nat → Nat) (p : Nat) :
    ∀ (fuel k i : Nat) (hi : i < (scrollAux h p (h k) k fuel).length),
      (scrollAux h p (h k) k fuel).get ⟨i, hi⟩ = ⟨h (k + i), p, h (k + i + 1)⟩ := by
  intro fuel
  induction fuel with
  | zero => intro k i hi; simp [scrollAux] at hi
  | succ f ih =>
    intro k i hi
    by_cases heq : h (k + 1) = h k
    · have hone : scrollAux h p (h k) k (f + 1) = [⟨h k, p, h (k + 1)⟩] := by
        simp [scrollAux, heq]
      have hi1 : i < 1 := by
        have := hi
        rw [hone] at this
        simpa using this
      rcases Nat.lt_one_iff.mp hi1 with rfl
      simp [hone]
    · have hcons : scrollAux h p (h k) k (f + 1)
          = ⟨h k, p, h (k + 1)⟩ :: scrollAux h p (h (k + 1)) (k + 1) f := by
        simp [scrollAux, heq]
      rcases i with _ | i'
      · simp [hcons]
      · have hi' : i' < (scrollAux h p (h (k + 1)) (k + 1) f).length := by
          have := hi
          rw [hcons] at this
          simpa using this
        have hmain := ih (k + 1) i' hi'
        have hstep : (scrollAux h p (h k) k (f + 1)).get ⟨i' + 1, hi⟩
            = (scrollAux h p (h (k + 1)) (k + 1) f).get ⟨i', hi'⟩ := by
          simp [hcons]
        rw [hstep, hmain]
        have e1 : k + 1 + i' = k + (i' + 1) := by omega
        rw [e1]

theorem scrollAux_stops_only_on_eq (h : Nat → Nat) (p : Nat) :
    ∀ (fuel k i : Nat), i + 1 < (scrollAux h p (h k) k fuel).length →
      h (k + i + 1) ≠ h (k + i) := by
  intro fuel
  induction fuel with
  | zero => intro k i hi; simp [scrollAux] at hi
  | succ f ih =>
    intro k i hi
    by_cases heq : h (k + 1) = h k
    · have hone : scrollAux h p (h k) k (f + 1) = [⟨h k, p, h (k + 1)⟩] := by
        simp [scrollAux, heq]
      rw [hone] at hi
      simp at hi
    · have hcons : scrollAux h p (h k) k (f + 1)
          = ⟨h k, p, h (k + 1)⟩ :: scrollAux h p (h (k + 1)) (k + 1) f := by
        simp [scrollAux, heq]
      rcases i with _ | i'
      · simpa using heq
      · rw [hcons] at hi
        have hi' : i' + 1 < (scrollAux h p (h (k + 1)) (k + 1) f).length := by
          simpa using hi
        have hres := ih (k + 1) i' hi'
        have harith : k + 1 + i' = k + (i' + 1) := by omega
        rwa [harith] at hres

theorem scrollAux_early_stop (h : Nat → Nat) (p : Nat) :
    ∀ (fuel k : Nat), (scrollAux h p (h k) k fuel).length < fuel →
      0 < (scrollAux h p (h k) k fuel).length ∧
        h (k + (scrollAux h p (h k) k fuel).length)
          = h (k + (scrollAux h p (h k) k fuel).length - 1) := by
  intro fuel
  induction fuel with
  | zero => intro k hk; omega
  | succ f ih =>
    intro k hk
    by_cases heq : h (k + 1) = h k
    · have hone : scrollAux h p (h k) k (f + 1) = [⟨h k, p, h (k + 1)⟩] := by
        simp [scrollAux, heq]
      rw [hone]
      simpa using heq
    · have hcons : scrollAux h p (h k) k (f + 1)
          = ⟨h k, p, h (k + 1)⟩ :: scrollAux h p (h (k + 1)) (k + 1) f := by
        simp [scrollAux, heq]
      rw [hcons] at hk ⊢
      simp only [List.length_cons] at hk ⊢
      have hlt : (scrollAux h p (h (k + 1)) (k + 1) f).length < f := by omega
      rcases ih (k + 1) hlt with ⟨hpos, hstable⟩
      constructor
      · omega
      · have e1 : k + ((scrollAux h p (h (k + 1)) (k + 1) f).length + 1)
            = k + 1 + (scrollAux h p (h (k + 1)) (k + 1) f).length := by omega
        rw [e1]
        exact hstable

theorem scrollAux_strict_runs_out (h : Nat → Nat) (p : Nat) :
    ∀ (fuel k : Nat), (∀ j, j < fuel → h (k + j + 1) < h (k + j)) →
      (scrollAux h p (h k) k fuel).length = fuel := by
  intro fuel
  induction fuel with
  | zero => intro k _; simp [scrollAux]
  | succ f ih =>
    intro k hdec
    have h0 : h (k + 1) < h k := by
      have := hdec 0 (by omega)
      simpa using this
    have hne : h (k + 1) ≠ h k := by omega
    have hcons : scrollAux h p (h k) k (f + 1)
        = ⟨h k, p, h (k + 1)⟩ :: scrollAux h p (h (k + 1)) (k + 1) f := by
      simp [scrollAux, hne]
    rw [hcons, List.length_cons, ih (k + 1) ?_]
    intro j hj
    have hres := hdec (j + 1) (by omega)
    have e1 : k + (j + 1) = k + 1 + j := by omega
    rwa [e1] at hres

/-! ## Lemmas: batch loop -/

theorem batchLoop_spec (total : Nat) :
    ∀ (rs : List TaskResult) (i : Nat),
      (∀ r ∈ rs, ∃ m, r = TaskResult.returned m) →
      ∃ logs events, batchLoop total rs i = some (logs, events) ∧
        logs.length = rs.length ∧
        events.map ProgressEvent.completed = List.range' (i + 1) rs.length ∧
        events.map ProgressEvent.total = List.replicate rs.length total := by
  intro rs
  induction rs with
  | nil =>
    intro i _
    exact ⟨[], [], rfl, rfl, by simp, by simp⟩
  | cons r rest ih =>
    intro i hall
    rcases hall r (List.mem_cons_self r rest) with ⟨m, rfl⟩
    rcases ih (i + 1) (fun x hx => hall x (List.mem_cons_of_mem _ hx)) with
      ⟨logs, events, heq, hlen, hcompleted, htotal⟩
    refine ⟨m :: logs, ⟨i + 1, total⟩ :: events, ?_, ?_, ?_, ?_⟩
    · simp [batchLoop, heq]
    · simp [hlen]
    · simp only [List.map_cons, hcompleted, List.length_cons, List.range'_succ]
    · simp [htotal, List.replicate_succ]

/-! ## Lemmas: splitlines -/

theorem splitlinesList_ne_nil : ∀ (cs : List Char), cs ≠ [] → splitlinesList cs ≠ [] := by
  intro cs h
  rw [splitlinesList.eq_def]
  split
  · exact absurd rfl h
  · simp
  · simp
  · simp
  · split <;> simp

theorem splitlines_ne_nil {s : String} (h : s ≠ "") : splitlines s ≠ [] := by
  have hdata : s.data ≠ [] := fun hd => h (String.ext hd)
  intro hmap
  exact splitlinesList_ne_nil s.data hdata (List.map_eq_nil_iff.mp hmap)

/-! ## Lemmas: input handlers -/

theorem isPrefixOf_append_self (l1 l2 : List Char) : l1.isPrefixOf (l1 ++ l2) = true := by
  induction l1 with
  | nil => simp [List.isPrefixOf]
  | cons a as ih => simp [List.isPrefixOf, ih]

theorem startswith_append_self (p rest : String) : startswith (p ++ rest) p = true := by
  unfold startswith
  rw [String.data_append]
  exact isPrefixOf_append_self _ _

theorem mem_uniqueAux {x : String} : ∀ (l seen : List String),
    x ∈ uniqueAux seen l → x ∈ l := by
  intro l
  induction l with
  | nil => intro seen hx; simp [uniqueAux] at hx
  | cons a rest ih =>
    intro seen hx
    rw [uniqueAux] at hx
    by_cases hseen : a ∈ seen
    · rw [if_pos hseen] at hx
      exact List.mem_cons_of_mem a (ih seen hx)
    · rw [if_neg hseen] at hx
      rcases List.mem_cons.mp hx with rfl | hmem
      · exact List.mem_cons_self _ _
      · exact List.mem_cons_of_mem a (ih (a :: seen) hmem)

theorem uniqueAux_spec : ∀ (l seen : List String),
    (uniqueAux seen l).Nodup ∧ ∀ x ∈ uniqueAux seen l, x ∉ seen := by
  intro l
  induction l with
  | nil => intro seen; simp [uniqueAux]
  | cons a rest ih =>
    intro seen
    rw [uniqueAux]
    by_cases hseen : a ∈ seen
    · rw [if_pos hseen]
      exact ih seen
    · rw [if_neg hseen]
      rcases ih (a :: seen) with ⟨hnd, hout⟩
      refine ⟨List.nodup_cons.mpr ⟨?_, hnd⟩, ?_⟩
      · intro hmem
        exact hout a hmem (List.mem_cons_self _ _)
      · intro x hx
        rcases List.mem_cons.mp hx with rfl | hmem
        · exact hseen
        · intro hxs
          exact hout x hmem (List.mem_cons_of_mem a hxs)

theorem uniqueKeepFirst_nodup (l : List String) : (uniqueKeepFirst l).Nodup :=
  (uniqueAux_spec l []).1

theorem https_append_inj : Function.Injective (fun u : String => "https://" ++ u) := by
  intro a b h
  have hd := congrArg String.data h
  simp only [String.data_append] at hd
  exact String.ext (List.append_cancel_left hd)

theorem chain_succ_range' : ∀ (n s : Nat),
    List.Chain' (fun a b => b = a + 1) (List.range' s n) := by
  intro n
  induction n with
  | zero => intro s; simp
  | succ m ih =>
    intro s
    rw [List.range'_succ]
    cases m with
    | zero => simp
    | succ m' =>
      rw [List.range'_succ]
      refine List.chain'_cons.mpr ⟨rfl, ?_⟩
      rw [← List.range'_succ]
      exact ih (s + 1)

/-! ## Claims -/

/-- C1 counterexample: a navigation failure whose exception description
str(e) is the empty string is not converted into a Failure record — the
handler expression str(e).splitlines()[0] itself raises an IndexError on
the empty line list, and that exception escapes the Capture Task. -/
theorem C1_empty_description_escapes :
    take_screenshot emptyMsgEnv "https://a.com" 0
      = TaskResult.escaped "IndexError: list index out of range" ∧
    ¬ ∃ m, take_screenshot emptyMsgEnv "https://a.com" 0 = TaskResult.returned m := by
  refine ⟨rfl, ?_⟩
  rintro ⟨m, hm⟩
  have h0 : take_screenshot emptyMsgEnv "https://a.com" 0
      = TaskResult.escaped "IndexError: list index out of range" := rfl
  rw [h0] at hm
  exact TaskResult.noConfusion hm

/-- C1 (amended): for every run whose exceptions all carry a non-empty
description, take_screenshot returns a status string (no exception
escapes), and on a failing run the returned message is the error line
built from the first line of the description. -/
theorem C1_errors_caught (env : BrowserEnv) (url : String) (index : Nat)
    (hdesc : ∀ e, tryBody env url index = Except.error e → e ≠ "") :
    ∃ msg, take_screenshot env url index = TaskResult.returned msg ∧
      (∀ e, tryBody env url index = Except.error e →
        msg = "⚠️ Error on " ++ url ++ ": " ++ (splitlines e).headD "") := by
  unfold take_screenshot
  cases htb : tryBody env url index with
  | ok m =>
    refine ⟨m, rfl, ?_⟩
    intro e he
    exact Except.noConfusion he
  | error e =>
    have hne : e ≠ "" := hdesc e htb
    cases hsplit : splitlines e with
    | nil => exact absurd hsplit (splitlines_ne_nil hne)
    | cons line rest =>
      refine ⟨"⚠️ Error on " ++ url ++ ": " ++ line, ?_, ?_⟩
      · show handleError url e = TaskResult.returned ("⚠️ Error on " ++ url ++ ": " ++ line)
        unfold handleError
        rw [hsplit]
      · intro e' he'
        have h2 : e = e' := Except.error.inj he'
        subst h2
        rw [hsplit]
        rfl

/-- C1 witness: a two-line timeout description is caught and summarised
by its first line. -/
theorem C1_errors_caught_witness :
    take_screenshot timeoutEnv "https://a.com" 0
      = TaskResult.returned "⚠️ Error on https://a.com: Timeout 60000ms exceeded." := by
  have hdesc : ∀ e, tryBody timeoutEnv "https://a.com" 0 = Except.error e → e ≠ "" := by
    intro e he
    have h1 : Except.error (α := String) (ε := String)
        "Timeout 60000ms exceeded.\nCall log." = Except.error e := he
    have h2 := Except.error.inj h1
    rw [← h2]
    decide
  obtain ⟨msg, hmsg, herr⟩ := C1_errors_caught timeoutEnv "https://a.com" 0 hdesc
  have hm := herr "Timeout 60000ms exceeded.\nCall log." rfl
  rw [hmsg, hm]
  rfl

/-- C2 counterexample: a batch of 2 submitted addresses does not always
produce 2 outcome records.  When the second task's navigation raises an
exception with an empty description, the exception escapes
take_screenshot, await future in the as_completed loop re-raises it,
and the whole run dies with no final progress event — fewer than N
records are produced. -/
theorem C2_escaped_task_kills_batch :
    take_screenshot emptyMsgEnv "https://b.com" 1
      = TaskResult.escaped "IndexError: list index out of range" ∧
    run_batch_processor
        [take_screenshot okEnv "https://a.com" 0,
          take_screenshot emptyMsgEnv "https://b.com" 1] = none :=
  ⟨rfl, rfl⟩

/-- C2 (amended): for every non-empty batch all of whose tasks complete
by returning a status record (no escaped exception; per C1 an escape is
reachable exactly for an error with empty description), the batch
processor appends exactly N log records, the progress events' completed
counts are 1, 2, ..., N (head 1, each successor one more, last N), and
the count N occurs exactly once.  If any task escapes, the loop dies
and fewer than N records are produced. -/
theorem C2_batch_counts (results : List TaskResult)
    (hne : results ≠ [])
    (hret : ∀ r ∈ results, ∃ m, r = TaskResult.returned m) :
    ∃ logs events, run_batch_processor results = some (logs, events) ∧
      logs.length = results.length ∧
      events.map ProgressEvent.completed = List.range' 1 results.length ∧
      (events.map ProgressEvent.completed).head? = some 1 ∧
      List.Chain' (fun a b => b = a + 1) (events.map ProgressEvent.completed) ∧
      (events.map ProgressEvent.completed).getLast? = some results.length ∧
      (events.map ProgressEvent.completed).count results.length = 1 ∧
      events.map ProgressEvent.total = List.replicate results.length results.length := by
  obtain ⟨logs, events, heq, hlen, hcompleted, htotal⟩ :=
    batchLoop_spec results.length results 0 hret
  obtain ⟨n, hn⟩ : ∃ n, results.length = n + 1 := by
    cases hlist : results with
    | nil => exact absurd hlist hne
    | cons a l => exact ⟨l.length, by simp⟩
  refine ⟨logs, events, heq, hlen, hcompleted, ?_, ?_, ?_, ?_, htotal⟩
  · rw [hcompleted, hn, List.range'_succ]
    rfl
  · rw [hcompleted]
    exact chain_succ_range' results.length 1
  · rw [hcompleted, hn, List.range'_concat, List.getLast?_concat]
    congr 1
    omega
  · rw [hcompleted]
    refine List.count_eq_one_of_mem (List.nodup_range' 1 results.length) ?_
    rw [List.mem_range'_1]
    omega

/-- C2 witness: a singleton batch yields one record and the single
progress event 1 of 1. -/
theorem C2_batch_counts_witness :
    ∃ logs events,
      run_batch_processor [TaskResult.returned "✅ Success: https://a.com"]
        = some (logs, events) ∧
      logs.length = 1 ∧
      events.map ProgressEvent.completed = List.range' 1 1 ∧
      (events.map ProgressEvent.completed).head? = some 1 ∧
      List.Chain' (fun a b => b = a + 1) (events.map ProgressEvent.completed) ∧
      (events.map ProgressEvent.completed).getLast? = some 1 ∧
      (events.map ProgressEvent.completed).count 1 = 1 ∧
      events.map ProgressEvent.total = List.replicate 1 1 :=
  C2_batch_counts [TaskResult.returned "✅ Success: https://a.com"]
    (by decide)
    (by
      intro r hr
      rw [List.mem_singleton] at hr
      exact ⟨"✅ Success: https://a.com", hr⟩)

/-- C3 counterexample: a CSV cell that already carries a scheme is not
passed through unchanged — the CSV handler prefixes https://
unconditionally, producing https://http://a.com. -/
theorem C3_csv_double_scheme :
    csv_urls [some "http://a.com"] = ["https://http://a.com"] ∧
    startswith "http://a.com" "http://" = true ∧
    "https://http://a.com" ≠ "http://a.com" := by
  refine ⟨?_, by decide, by decide⟩
  rfl

/-- C3 (amended): every address handed to the batch carries an explicit
http:// or https:// scheme; the paste path prefixes https:// only when
the line starts with neither scheme and passes scheme-carrying lines
through unchanged, while the CSV path prefixes https:// to every cell
unconditionally (so a scheme-carrying CSV cell is double-prefixed, not
passed through). -/
theorem C3_scheme_normalization :
    (∀ line : String,
      (startswith (paste_normalize line) "http://" = true ∨
        startswith (paste_normalize line) "https://" = true) ∧
      ((startswith line "http://" || startswith line "https://") = true →
        paste_normalize line = line)) ∧
    (∀ (input u : String), u ∈ paste_urls input →
      startswith u "http://" = true ∨ startswith u "https://" = true) ∧
    (∀ (col : List (Option String)) (u : String), u ∈ csv_urls col →
      startswith u "https://" = true) := by
  have hnorm : ∀ line : String,
      startswith (paste_normalize line) "http://" = true ∨
        startswith (paste_normalize line) "https://" = true := by
    intro line
    unfold paste_normalize
    by_cases hc : (startswith line "http://" || startswith line "https://") = true
    · rw [if_pos hc]
      exact Bool.or_eq_true_iff.mp hc
    · rw [if_neg hc]
      exact Or.inr (startswith_append_self "https://" line)
  refine ⟨?_, ?_, ?_⟩
  · intro line
    refine ⟨hnorm line, ?_⟩
    intro hc
    unfold paste_normalize
    rw [if_pos hc]
  · intro input u hu
    unfold paste_urls at hu
    rcases List.mem_map.mp hu with ⟨l, _, rfl⟩
    exact hnorm l
  · intro col u hu
    unfold csv_urls at hu
    rcases List.mem_map.mp hu with ⟨w, _, rfl⟩
    exact startswith_append_self "https://" w

/-- C3 witness: a pasted line that already starts with http:// is passed
through unchanged. -/
theorem C3_scheme_normalization_witness :
    paste_normalize "http://b.com" = "http://b.com" :=
  (C3_scheme_normalization.1 "http://b.com").2 (by decide)

/-- C4 counterexample: on a page of constant height 2000 the single
executed iteration passes 2000 — the page's full scroll height, not the
1080 viewport height — to window.scrollBy. -/
theorem C4_scroll_delta_not_viewport :
    scroll_to_bottom (fun _ => 2000) = [⟨2000, 1, 2000⟩] ∧
    (2000 : Nat) ≠ viewportHeight := by
  exact ⟨rfl, by decide⟩

/-- C4 (amended): the settling strategy records the initial scrollable
height and performs at most 30 iterations; iteration i scrolls by the
page's current full scroll height (document.body.scrollHeight, not the
viewport height), pauses 1 second and re-measures; it stops as soon as
two consecutive measurements are equal, so a page whose height never
changes terminates after the very first comparison. -/
theorem C4_settling_loop (h : Nat → Nat) :
    (scroll_to_bottom h).length ≤ 30 ∧
    0 < (scroll_to_bottom h).length ∧
    (∀ (i : Nat) (hi : i < (scroll_to_bottom h).length),
      (scroll_to_bottom h).get ⟨i, hi⟩ = ⟨h i, 1, h (i + 1)⟩) ∧
    (∀ i : Nat, i + 1 < (scroll_to_bottom h).length → h (i + 1) ≠ h i) ∧
    ((scroll_to_bottom h).length < 30 →
      h (scroll_to_bottom h).length = h ((scroll_to_bottom h).length - 1)) ∧
    (h 1 = h 0 → (scroll_to_bottom h).length = 1) := by
  refine ⟨?_, ?_, ?_, ?_, ?_, ?_⟩
  · exact scrollAux_length_le h 1 30 (h 0) 0
  · exact scrollAux_length_pos h 1 (h 0) 0 30 (by omega)
  · intro i hi
    have := scrollAux_get h 1 30 0 i hi
    simpa using this
  · intro i hlt
    have := scrollAux_stops_only_on_eq h 1 30 0 i hlt
    simpa using this
  · intro hlen
    have := scrollAux_early_stop h 1 30 0 hlen
    simpa using this.2
  · intro hstable
    have hone : scrollAux h 1 (h 0) 0 (29 + 1) = [⟨h 0, 1, h 1⟩] := by
      rw [scrollAux]
      simp only [Nat.zero_add, hstable, if_pos]
    show (scrollAux h 1 (h 0) 0 (29 + 1)).length = 1
    rw [hone]
    rfl

/-- C4 witness: a constant-height page settles after one iteration. -/
theorem C4_settling_loop_witness :
    (scroll_to_bottom (fun _ => 7)).length = 1 :=
  (C4_settling_loop (fun _ => 7)).2.2.2.2.2 rfl

/-- C5 counterexample: on a page that shrinks from 100 to 80 on the
first scroll, the re-measured height is strictly smaller than the
previous measurement, yet the loop does not stop at that iteration —
the break fires only on exact equality, so a second iteration runs. -/
theorem C5_shrink_does_not_stop :
    shrinkingPage 1 < shrinkingPage 0 ∧
    (scroll_to_bottom shrinkingPage).length = 2 ∧
    (scroll_to_bottom shrinkingPage).length ≠ 1 := by
  refine ⟨by decide, rfl, by decide⟩

/-- C5 (amended): the settling strategy stops early only when two
consecutive measurements are exactly equal; a strictly shrinking page is
never treated as stable and the loop runs to the full 30-iteration cap. -/
theorem C5_strict_shrink_runs_to_cap (h : Nat → Nat)
    (hdec : ∀ j, j < 30 → h (j + 1) < h j) :
    (scroll_to_bottom h).length = 30 := by
  have := scrollAux_strict_runs_out h 1 30 0 ?hyp
  case hyp =>
    intro j hj
    simpa using hdec j hj
  simpa using this

/-- C5 witness: a page losing one pixel of height per scroll runs all 30
iterations. -/
theorem C5_strict_shrink_runs_to_cap_witness :
    (scroll_to_bottom (fun k => 100 - k)).length = 30 :=
  C5_strict_shrink_runs_to_cap (fun k => 100 - k) (by decide)

/-- C6: artifact file names are pairwise distinct because each carries
its task's 1-based index as the leading digit run; a pasted list with a
duplicate raw address yields two tasks (no deduplication), two outcome
records, and the two distinct files 1_a.com.png and 2_a.com.png. -/
theorem C6_filenames_distinct :
    (∀ urls : List String, (batch_filenames 0 urls).Nodup) ∧
    (∀ (i j : Nat) (u v : String), i ≠ j →
      screenshot_filename i u ≠ screenshot_filename j v) ∧
    paste_urls "a.com\na.com" = ["https://a.com", "https://a.com"] ∧
    batch_filenames 0 ["https://a.com", "https://a.com"]
      = ["1_a.com.png", "2_a.com.png"] ∧
    run_batch_processor
        [TaskResult.returned "✅ Success: https://a.com",
          TaskResult.returned "✅ Success: https://a.com"]
      = some (["✅ Success: https://a.com", "✅ Success: https://a.com"],
          [⟨1, 2⟩, ⟨2, 2⟩]) := by
  refine ⟨fun urls => batch_filenames_nodup 0 urls,
    fun i j u v hij => screenshot_filename_inj hij, ?_, ?_, rfl⟩
  · rfl
  · rfl

/-- C6 witness: the two tasks of the duplicated address get distinct
file names. -/
theorem C6_filenames_distinct_witness :
    screenshot_filename 0 "https://a.com" ≠ screenshot_filename 1 "https://a.com" :=
  C6_filenames_distinct.2.1 0 1 "https://a.com" "https://a.com" (by decide)

/-- C7: for every scheme-carrying address, the sanitized part of the
artifact name contains no character from the forbidden set, because the
character-class substitution maps each forbidden character to an
underscore. -/
theorem C7_sanitized_no_forbidden (url : String)
    (_hscheme : startswith url "http://" = true ∨ startswith url "https://" = true) :
    ∀ c ∈ (safe_name url).data, isForbidden c = false := by
  intro c hc
  have hdata : (safe_name url).data
      = (((splitDoubleSlash url.data).drop 1).headD []).map sanitizeChar := rfl
  rw [hdata] at hc
  rcases List.mem_map.mp hc with ⟨c0, _, rfl⟩
  unfold sanitizeChar
  by_cases hf : isForbidden c0 = true
  · rw [if_pos hf]
    decide
  · rw [if_neg hf]
    exact Bool.eq_false_iff.mpr hf

/-- C7 witness: the first character of the sanitized name of a URL full
of forbidden characters is not forbidden. -/
theorem C7_sanitized_no_forbidden_witness :
    isForbidden ((safe_name "https://ex:ample.com/p?q").data.headD 'a') = false :=
  C7_sanitized_no_forbidden "https://ex:ample.com/p?q" (Or.inr (by decide))
    ((safe_name "https://ex:ample.com/p?q").data.headD 'a') (by decide)

/-- C8: flush is idempotent — after one or two flushes the screenshot
and zip directories exist and are empty, the in-memory log is empty and
the remembered archive path is cleared. -/
theorem C8_flush_idempotent (s : AppState) :
    flush_files (flush_files s) = flush_files s ∧
    (flush_files s).screenshotDir = some [] ∧
    (flush_files s).zipDir = some [] ∧
    (flush_files s).logs = [] ∧
    (flush_files s).zipPath = none := by
  have hdir : ∀ d : DirState, flush_dir d = some [] := by
    intro d
    cases d <;> rfl
  refine ⟨?_, hdir _, hdir _, rfl, rfl⟩
  show flush_files (flush_files s) = flush_files s
  unfold flush_files
  simp [hdir]

/-- C9: after a batch, the archive is created exactly once per run — a
pass with the archive path unset and a non-empty screenshot directory
creates it and remembers its path, any later pass with the path set
reuses it without creating another; with an empty screenshot directory
the creation is skipped with a warning and no archive path is set. -/
theorem C9_archive_once_per_run (files : List String) (hne : files ≠ []) :
    results_section none files = (some "zip_files/screenshots.zip", ⟨1, false⟩) ∧
    results_section (some "zip_files/screenshots.zip") files
      = (some "zip_files/screenshots.zip", ⟨0, false⟩) ∧
    (∀ p : String, p ≠ "" →
      results_section (some p) files = (some p, ⟨0, false⟩)) ∧
    results_section none [] = (none, ⟨0, true⟩) := by
  have hemp : files.isEmpty = false := by
    cases files with
    | nil => exact absurd rfl hne
    | cons a l => rfl
  refine ⟨?_, rfl, ?_, rfl⟩
  · have h1 : results_section none files
        = if files.isEmpty then (none, ⟨0, true⟩)
          else (some (ZIP_DIR ++ "/" ++ "screenshots" ++ ".zip"), ⟨1, false⟩) := rfl
    rw [h1, hemp]
    rfl
  · intro p hp
    simp [results_section, truthy, hp]

/-- C9 witness: first pass creates the archive, from a directory holding
one artifact. -/
theorem C9_archive_once_per_run_witness :
    results_section none ["1_a.com.png"] = (some "zip_files/screenshots.zip", ⟨1, false⟩) :=
  (C9_archive_once_per_run ["1_a.com.png"] (by decide)).1

/-- C10: the CSV path drops missing cells and deduplicates before the
batch starts, so its URL list is duplicate-free and a domain appearing
twice yields one task; the paste path keeps duplicates. -/
theorem C10_csv_dedup :
    (∀ col : List (Option String), (csv_urls col).Nodup) ∧
    (∀ col : List (Option String), csv_urls (none :: col) = csv_urls col) ∧
    (∀ d : String, csv_urls [some d, some d] = ["https://" ++ d]) ∧
    (paste_urls "a.com\na.com").length = 2 ∧
    (csv_urls [some "a.com", some "a.com"]).length = 1 := by
  refine ⟨?_, ?_, ?_, rfl, rfl⟩
  · intro col
    exact (uniqueKeepFirst_nodup _).map https_append_inj
  · intro col
    rfl
  · intro d
    simp [csv_urls, dropna, uniqueKeepFirst, uniqueAux]

end Scrapeshot
